import Mathlib

/-!
Shallow embedding of the character-controller and camera-rig logic of
`src/main.js` (virtual-house-tour).  Vectors and quaternions carry real
components; the per-frame callback `animate` is embedded as a pure step
function `frame` on an explicit `World` state, returning the animation
command (play / stop / nothing) issued on that frame.
-/

namespace VirtualHouseTour

noncomputable section

/-- Embedding of `THREE.Vector3` (the fields used by `main.js`). -/
@[ext]
structure Vec3 where
  x : ℝ
  y : ℝ
  z : ℝ

/-- Componentwise vector addition (`Vector3.add`). -/
def vadd (a b : Vec3) : Vec3 :=
  ⟨a.x + b.x, a.y + b.y, a.z + b.z⟩

/-- Componentwise vector subtraction (`Vector3.sub`). -/
def vsub (a b : Vec3) : Vec3 :=
  ⟨a.x - b.x, a.y - b.y, a.z - b.z⟩

/-- Scalar multiple (`Vector3.multiplyScalar`). -/
def smul (v : Vec3) (s : ℝ) : Vec3 :=
  ⟨v.x * s, v.y * s, v.z * s⟩

/-- Embedding of `Vector3.addScaledVector`: `p + v * s`. -/
def addScaledVector (p v : Vec3) (s : ℝ) : Vec3 :=
  vadd p (smul v s)

/-- Embedding of `Vector3.lerpVectors(v1, v2, alpha)`:
componentwise `v1 + (v2 - v1) * alpha`. -/
def lerpVectors (v1 v2 : Vec3) (alpha : ℝ) : Vec3 :=
  ⟨v1.x + (v2.x - v1.x) * alpha,
   v1.y + (v2.y - v1.y) * alpha,
   v1.z + (v2.z - v1.z) * alpha⟩

/-- Embedding of `Vector3.lengthSq`. -/
def lengthSq (v : Vec3) : ℝ :=
  v.x * v.x + v.y * v.y + v.z * v.z

/-- Embedding of `Vector3.length`. -/
def vlength (v : Vec3) : ℝ :=
  Real.sqrt (lengthSq v)

/-- Embedding of `Vector3.normalize`: three.js divides by `length() || 1`,
so the zero vector is left unchanged. -/
def normalize (v : Vec3) : Vec3 :=
  smul v (1 / (if vlength v = 0 then 1 else vlength v))

/-- Embedding of `THREE.Quaternion` (components `x, y, z, w`). -/
@[ext]
structure Quat where
  x : ℝ
  y : ℝ
  z : ℝ
  w : ℝ

/-- Embedding of `Quaternion.setFromEuler` for the default `XYZ` order,
as used by `new THREE.Quaternion().setFromEuler(new THREE.Euler(ex, ey, ez))`. -/
def setFromEulerXYZ (ex ey ez : ℝ) : Quat :=
  let c1 := Real.cos (ex / 2)
  let c2 := Real.cos (ey / 2)
  let c3 := Real.cos (ez / 2)
  let s1 := Real.sin (ex / 2)
  let s2 := Real.sin (ey / 2)
  let s3 := Real.sin (ez / 2)
  ⟨s1 * c2 * c3 + c1 * s2 * s3,
   c1 * s2 * c3 - s1 * c2 * s3,
   c1 * c2 * s3 + s1 * s2 * c3,
   c1 * c2 * c3 - s1 * s2 * s3⟩

/-- Embedding of `Vector3.applyQuaternion`:
`v + 2 w (q × v) + 2 q × (q × v)`, written exactly as three.js computes it. -/
def applyQuaternion (v : Vec3) (q : Quat) : Vec3 :=
  let tx := 2 * (q.y * v.z - q.z * v.y)
  let ty := 2 * (q.z * v.x - q.x * v.z)
  let tz := 2 * (q.x * v.y - q.y * v.x)
  ⟨v.x + q.w * tx + q.y * tz - q.z * ty,
   v.y + q.w * ty + q.z * tx - q.x * tz,
   v.z + q.w * tz + q.x * ty - q.y * tx⟩

/-- `MOVEMENT_SPEED` constant from `main.js` (line 10). -/
def MOVEMENT_SPEED : ℝ := 5

/-- `sensitivity` constant from `main.js` (line 100). -/
def sensitivity : ℝ := 0.002

/-- `CHARACTER_START_POSITION` constant from `main.js` (line 9). -/
def CHARACTER_START_POSITION : Vec3 := ⟨0, 0, 0⟩

/-- The `keys` object of `main.js`: held state of `KeyW`, `KeyA`, `KeyS`, `KeyD`. -/
structure Keys where
  keyW : Bool
  keyA : Bool
  keyS : Bool
  keyD : Bool
deriving DecidableEq

/-- No movement key held. -/
def noKeys : Keys := ⟨false, false, false, false⟩

/-- Only `KeyW` held. -/
def kW : Keys := ⟨true, false, false, false⟩

/-- All four movement keys held. -/
def allKeys : Keys := ⟨true, true, true, true⟩

/-- The `moveDir` vector built in `animate` (lines 136-140):
`W` subtracts 1 from `z`, `S` adds 1 to `z`, `A` subtracts 1 from `x`,
`D` adds 1 to `x`; `y` is never touched. -/
def moveDir (k : Keys) : Vec3 :=
  ⟨(if k.keyA then (-1 : ℝ) else 0) + (if k.keyD then (1 : ℝ) else 0),
   0,
   (if k.keyW then (-1 : ℝ) else 0) + (if k.keyS then (1 : ℝ) else 0)⟩

/-- The `isMoving` test of `animate` (line 142): `moveDir.lengthSq() > 0`. -/
def isMoving (k : Keys) : Prop :=
  0 < lengthSq (moveDir k)

/-- The `charQuat` of `animate` (line 132):
`new THREE.Quaternion().setFromEuler(new THREE.Euler(0, yaw, 0))`. -/
def charQuat (yaw : ℝ) : Quat :=
  setFromEulerXYZ 0 yaw 0

open Classical in
/-- The movement block of `animate` (lines 142-146): if some intent is present,
normalize the intent, rotate it by the character quaternion, and displace the
position by `MOVEMENT_SPEED * delta`; otherwise the position is unchanged. -/
def movedPos (k : Keys) (yaw delta : ℝ) (p : Vec3) : Vec3 :=
  if isMoving k then
    addScaledVector p (applyQuaternion (normalize (moveDir k)) (charQuat yaw))
      (MOVEMENT_SPEED * delta)
  else p

/-- Observable animation command issued by one frame. -/
inductive AnimCmd where
  | start
  | stop
  | none
deriving DecidableEq

open Classical in
/-- The animation block of `animate` (lines 149-156), acting on the state of
`walkAction` (`some p` with `p` = "currently playing", `Option.none` before
the character load callback has run) and the `wasMoving` flag.  Returns the
new `walkAction` playing state, the new `wasMoving`, and the command issued. -/
def animStep (walkPlaying : Option Bool) (wasMoving : Bool) (k : Keys) :
    Option Bool × Bool × AnimCmd :=
  match walkPlaying with
  | Option.none => (Option.none, wasMoving, AnimCmd.none)
  | some p =>
    if isMoving k ∧ wasMoving = false then (some true, true, AnimCmd.start)
    else if ¬ isMoving k ∧ wasMoving = true then (some false, false, AnimCmd.stop)
    else (some p, if isMoving k then true else false, AnimCmd.none)

/-- Character pose: `character.position` and `character.quaternion`. -/
structure CharState where
  pos : Vec3
  quat : Quat

/-- Module-level mutable state of `main.js` read and written by `animate`:
the character handle (with its pose), the walk-action handle (with its
playing flag), the `wasMoving` edge flag, and the camera position. -/
structure World where
  character : Option CharState
  walkPlaying : Option Bool
  wasMoving : Bool
  cameraPos : Vec3

/-- State at startup: no assets loaded, `wasMoving = false`, and the camera
placed by `camera.position.set(0, 3, 10)` (line 25). -/
def initialWorld : World :=
  ⟨Option.none, Option.none, false, ⟨0, 3, 10⟩⟩

/-- The character-load callback (lines 67-76): publishes the character handle
at `CHARACTER_START_POSITION` with the loaded orientation `q0`, and calls
`walkAction.play()`, so the walk animation is playing immediately. -/
def loadChar (w : World) (q0 : Quat) : World :=
  { w with character := some ⟨CHARACTER_START_POSITION, q0⟩,
           walkPlaying := some true }

/-- The delta clamp of `animate` (line 128): `Math.min(gap, 0.05)` where
`gap` is the elapsed time in seconds. -/
def clampDelta (gap : ℝ) : ℝ :=
  min gap 0.05

/-- The camera-follow target of `animate` (lines 159-162): the character
position plus the offset `(0, 2.8, 4)` rotated by the view quaternion
built from `Euler(pitch, yaw + π, 0)`. -/
def tgtCamera (p : Vec3) (yaw pitch : ℝ) : Vec3 :=
  vadd p (applyQuaternion ⟨0, 2.8, 4⟩ (setFromEulerXYZ pitch (yaw + Real.pi) 0))

/-- One iteration of `animate` (lines 125-173) as a pure step: inputs are the
current world, the held keys, the look angles, and the raw elapsed time `gap`
(seconds) since the previous frame.  Before the character has loaded the whole
`if (character)` block is skipped, so the world is returned unchanged and no
animation command is issued. -/
def frame (w : World) (k : Keys) (yaw pitch gap : ℝ) : World × AnimCmd :=
  let delta := clampDelta gap
  match w.character with
  | Option.none => (w, AnimCmd.none)
  | some ch =>
    let cq := charQuat yaw
    let pos1 := movedPos k yaw delta ch.pos
    let a := animStep w.walkPlaying w.wasMoving k
    let cam1 := lerpVectors w.cameraPos (tgtCamera pos1 yaw pitch) 0.2
    ({ character := some ⟨pos1, cq⟩,
       walkPlaying := a.1,
       wasMoving := a.2.1,
       cameraPos := cam1 }, a.2.2)

/-- Run `animate` over a list of per-frame key states (look angles and frame
gap held fixed), collecting the animation command of every frame. -/
def processFrames (yaw pitch gap : ℝ) : World → List Keys → World × List AnimCmd
  | w, [] => (w, [])
  | w, k :: ks =>
    ((processFrames yaw pitch gap (frame w k yaw pitch gap).1 ks).1,
     (frame w k yaw pitch gap).2 ::
       (processFrames yaw pitch gap (frame w k yaw pitch gap).1 ks).2)

/-- Number of occurrences of a given animation command in a command trace. -/
def countCmd (c : AnimCmd) : List AnimCmd → ℕ
  | [] => 0
  | d :: ds => (if d = c then 1 else 0) + countCmd c ds

/-- The mouse-look accumulators `yaw` and `pitch` of `main.js`. -/
structure Look where
  yaw : ℝ
  pitch : ℝ

/-- The `onMouseMove` handler (lines 114-118): `yaw -= dx * sensitivity`,
`pitch -= dy * sensitivity`, then `pitch` is clamped to `[-π/2, π/2]`. -/
def onMouseMove (l : Look) (dx dy : ℝ) : Look :=
  ⟨l.yaw - dx * sensitivity,
   max (-(Real.pi / 2)) (min (Real.pi / 2) (l.pitch - dy * sensitivity))⟩

/-- Apply a sequence of pointer-motion samples `(dx, dy)` to the look state. -/
def processLook (l : Look) : List (ℝ × ℝ) → Look
  | [] => l
  | e :: es => processLook (onMouseMove l e.1 e.2) es

end

/-! ### Basic computation lemmas -/

theorem frame_unloaded (w : World) (k : Keys) (yaw pitch gap : ℝ)
    (h : w.character = Option.none) :
    frame w k yaw pitch gap = (w, AnimCmd.none) := by
  obtain ⟨c, wp, wm, cp⟩ := w
  cases h
  rfl

theorem frame_loaded (w : World) (ch : CharState) (k : Keys) (yaw pitch gap : ℝ)
    (h : w.character = some ch) :
    frame w k yaw pitch gap =
      ({ character := some ⟨movedPos k yaw (clampDelta gap) ch.pos, charQuat yaw⟩,
         walkPlaying := (animStep w.walkPlaying w.wasMoving k).1,
         wasMoving := (animStep w.walkPlaying w.wasMoving k).2.1,
         cameraPos := lerpVectors w.cameraPos
           (tgtCamera (movedPos k yaw (clampDelta gap) ch.pos) yaw pitch) 0.2 },
       (animStep w.walkPlaying w.wasMoving k).2.2) := by
  obtain ⟨c, wp, wm, cp⟩ := w
  cases h
  rfl

theorem animStep_unloaded (wm : Bool) (k : Keys) :
    animStep Option.none wm k = (Option.none, wm, AnimCmd.none) := rfl

theorem animStep_start (p : Bool) (k : Keys) (h : isMoving k) :
    animStep (some p) false k = (some true, true, AnimCmd.start) := by
  simp [animStep, h]

theorem animStep_stop (p : Bool) (k : Keys) (h : ¬ isMoving k) :
    animStep (some p) true k = (some false, false, AnimCmd.stop) := by
  simp [animStep, h]

theorem animStep_keepMoving (p : Bool) (k : Keys) (h : isMoving k) :
    animStep (some p) true k = (some p, true, AnimCmd.none) := by
  simp [animStep, h]

theorem animStep_keepIdle (p : Bool) (k : Keys) (h : ¬ isMoving k) :
    animStep (some p) false k = (some p, false, AnimCmd.none) := by
  simp [animStep, h]

theorem moveDir_noKeys : moveDir noKeys = ⟨0, 0, 0⟩ := by
  simp [moveDir, noKeys]

theorem not_isMoving_noKeys : ¬ isMoving noKeys := by
  simp [isMoving, moveDir_noKeys, lengthSq]

theorem moveDir_kW : moveDir kW = ⟨0, 0, -1⟩ := by
  simp [moveDir, kW]

theorem isMoving_kW : isMoving kW := by
  rw [isMoving, moveDir_kW]
  norm_num [lengthSq]

theorem moveDir_allKeys : moveDir allKeys = ⟨0, 0, 0⟩ := by
  norm_num [moveDir, allKeys]

theorem not_isMoving_allKeys : ¬ isMoving allKeys := by
  simp [isMoving, moveDir_allKeys, lengthSq]

theorem movedPos_not_moving (k : Keys) (yaw delta : ℝ) (p : Vec3)
    (h : ¬ isMoving k) : movedPos k yaw delta p = p := by
  simp [movedPos, h]

theorem movedPos_moving (k : Keys) (yaw delta : ℝ) (p : Vec3)
    (h : isMoving k) :
    movedPos k yaw delta p =
      addScaledVector p (applyQuaternion (normalize (moveDir k)) (charQuat yaw))
        (MOVEMENT_SPEED * delta) := by
  simp [movedPos, h]

/-! ### Quaternion algebra lemmas -/

theorem charQuat_eq (yaw : ℝ) :
    charQuat yaw = ⟨0, Real.sin (yaw / 2), 0, Real.cos (yaw / 2)⟩ := by
  ext <;>
    simp [charQuat, setFromEulerXYZ, Real.sin_zero, Real.cos_zero]

theorem applyQuaternion_charQuat (v : Vec3) (yaw : ℝ) :
    applyQuaternion v (charQuat yaw) =
      ⟨v.x * (1 - 2 * Real.sin (yaw / 2) ^ 2) +
         v.z * (2 * Real.cos (yaw / 2) * Real.sin (yaw / 2)),
       v.y,
       v.z * (1 - 2 * Real.sin (yaw / 2) ^ 2) -
         v.x * (2 * Real.cos (yaw / 2) * Real.sin (yaw / 2))⟩ := by
  rw [charQuat_eq]
  ext <;> simp [applyQuaternion] <;> ring

theorem lengthSq_applyQuaternion_charQuat (v : Vec3) (yaw : ℝ) :
    lengthSq (applyQuaternion v (charQuat yaw)) = lengthSq v := by
  have h := Real.sin_sq_add_cos_sq (yaw / 2)
  rw [applyQuaternion_charQuat]
  simp only [lengthSq]
  linear_combination
    (4 * Real.sin (yaw / 2) ^ 2 * (v.x ^ 2 + v.z ^ 2)) * h

theorem vlength_applyQuaternion_charQuat (v : Vec3) (yaw : ℝ) :
    vlength (applyQuaternion v (charQuat yaw)) = vlength v := by
  rw [vlength, lengthSq_applyQuaternion_charQuat, vlength]

theorem lengthSq_smul (v : Vec3) (c : ℝ) :
    lengthSq (smul v c) = c ^ 2 * lengthSq v := by
  simp [lengthSq, smul]
  ring

theorem vlength_smul (v : Vec3) (c : ℝ) :
    vlength (smul v c) = |c| * vlength v := by
  rw [vlength, lengthSq_smul, Real.sqrt_mul (sq_nonneg c), Real.sqrt_sq_eq_abs,
    vlength]

theorem normalize_of_lengthSq_one (v : Vec3) (h : lengthSq v = 1) :
    normalize v = v := by
  have hl : vlength v = 1 := by rw [vlength, h, Real.sqrt_one]
  rw [normalize, hl]
  norm_num
  ext <;> simp [smul]

theorem vsub_addScaledVector (p v : Vec3) (s : ℝ) :
    vsub (addScaledVector p v s) p = smul v s := by
  ext <;> simp [vsub, addScaledVector, vadd, smul]

theorem frame_displacement_unit (w : World) (ch : CharState) (k : Keys)
    (yaw pitch dt : ℝ) (hch : w.character = some ch)
    (hu : lengthSq (moveDir k) = 1) (h0 : 0 ≤ dt) (h1 : dt ≤ 0.05) :
    ((frame w k yaw pitch dt).1.character.map fun c => vlength (vsub c.pos ch.pos)) =
      some (MOVEMENT_SPEED * dt) := by
  have hmv : isMoving k := by rw [isMoving, hu]; norm_num
  have hdelta : clampDelta dt = dt := min_eq_left h1
  rw [frame_loaded w ch k yaw pitch dt hch]
  simp only [Option.map_some']
  congr 1
  rw [hdelta, movedPos_moving _ _ _ _ hmv, vsub_addScaledVector, vlength_smul,
    vlength_applyQuaternion_charQuat, normalize_of_lengthSq_one _ hu,
    vlength, hu, Real.sqrt_one, mul_one]
  exact abs_of_nonneg (mul_nonneg (by norm_num [MOVEMENT_SPEED]) h0)

/-! ### Claim theorems -/

/-- C3: whenever an opposing key pair is held simultaneously
(forward+back, or left+right), the intent vector's contribution on that
axis is exactly zero; all four keys held yields the zero intent vector and
zero displacement of the character. -/
theorem opposing_keys_cancel :
    (∀ k : Keys, k.keyW = true → k.keyS = true → (moveDir k).z = 0) ∧
    (∀ k : Keys, k.keyA = true → k.keyD = true → (moveDir k).x = 0) ∧
    moveDir allKeys = ⟨0, 0, 0⟩ ∧
    (∀ (w : World) (ch : CharState) (yaw pitch gap : ℝ),
       w.character = some ch →
       (frame w allKeys yaw pitch gap).1.character.map CharState.pos =
         some ch.pos) := by
  refine ⟨?_, ?_, moveDir_allKeys, ?_⟩
  · intro k h1 h2
    simp [moveDir, h1, h2]
  · intro k h1 h2
    simp [moveDir, h1, h2]
  · intro w ch yaw pitch gap hch
    rw [frame_loaded w ch allKeys yaw pitch gap hch]
    simp only [Option.map_some']
    rw [movedPos_not_moving _ _ _ _ not_isMoving_allKeys]

/-- Witness for C3 at a concrete input: all four keys held from the loaded
start state give zero intent on both axes and leave the position fixed. -/
theorem opposing_keys_cancel_witness :
    (moveDir allKeys).z = 0 ∧ (moveDir allKeys).x = 0 ∧
    (frame (loadChar initialWorld ⟨0, 0, 0, 1⟩) allKeys 0 0 (1 / 60)).1.character.map
      CharState.pos = some CHARACTER_START_POSITION :=
  ⟨opposing_keys_cancel.1 allKeys rfl rfl,
   opposing_keys_cancel.2.1 allKeys rfl rfl,
   opposing_keys_cancel.2.2.2 (loadChar initialWorld ⟨0, 0, 0, 1⟩)
     ⟨CHARACTER_START_POSITION, ⟨0, 0, 0, 1⟩⟩ 0 0 (1 / 60) rfl⟩

/-- C4: with the character loaded, a single held directional key, any yaw,
any pitch, and elapsed time `0 ≤ Δt ≤ 0.05`, one frame displaces the
character by a vector of magnitude exactly `MOVEMENT_SPEED * Δt`. -/
theorem single_key_displacement (w : World) (ch : CharState) (k : Keys)
    (yaw pitch dt : ℝ) (hch : w.character = some ch)
    (hk : k = ⟨true, false, false, false⟩ ∨ k = ⟨false, false, true, false⟩ ∨
          k = ⟨false, true, false, false⟩ ∨ k = ⟨false, false, false, true⟩)
    (h0 : 0 ≤ dt) (h1 : dt ≤ 0.05) :
    ((frame w k yaw pitch dt).1.character.map fun c => vlength (vsub c.pos ch.pos)) =
      some (MOVEMENT_SPEED * dt) := by
  apply frame_displacement_unit w ch k yaw pitch dt hch ?_ h0 h1
  rcases hk with h | h | h | h <;> subst h <;> norm_num [moveDir, lengthSq]

/-- Witness for C4: holding only `KeyW` for a frame of 0.04 time-units from
the loaded start state moves the character by exactly `5 * 0.04`. -/
theorem single_key_displacement_witness :
    ((frame (loadChar initialWorld ⟨0, 0, 0, 1⟩) kW 0 0 0.04).1.character.map
        fun c => vlength (vsub c.pos CHARACTER_START_POSITION)) =
      some (MOVEMENT_SPEED * 0.04) :=
  single_key_displacement (loadChar initialWorld ⟨0, 0, 0, 1⟩)
    ⟨CHARACTER_START_POSITION, ⟨0, 0, 0, 1⟩⟩ kW 0 0 0.04 rfl
    (Or.inl rfl) (by norm_num) (by norm_num)

/-- C6: a frame whose raw elapsed time is 2.0 time-units is identical (same
world, same animation command) to a frame whose raw elapsed time is 0.05
time-units, and the per-frame elapsed time used by the motion integrator is
the minimum of the raw gap and 0.05. -/
theorem delta_clamp_frames :
    (∀ (w : World) (k : Keys) (yaw pitch : ℝ),
       frame w k yaw pitch 2 = frame w k yaw pitch 0.05) ∧
    (∀ gap : ℝ, clampDelta gap = min gap 0.05) := by
  constructor
  · intro w k yaw pitch
    have h : clampDelta 2 = clampDelta 0.05 := by
      rw [clampDelta, clampDelta, min_self]
      exact min_eq_right (by norm_num)
    cases hc : w.character with
    | none => rw [frame_unloaded _ _ _ _ _ hc, frame_unloaded _ _ _ _ _ hc]
    | some ch =>
      rw [frame_loaded _ ch _ _ _ _ hc, frame_loaded _ ch _ _ _ _ hc, h]
  · intro gap
    rfl

/-- C8: while the character is unloaded a frame is a strict no-op — the whole
world (in particular the camera position) is returned unchanged and no
animation command is issued — and the initial world has the camera at its
configured placement `(0, 3, 10)` with both asset handles absent. -/
theorem before_load_noop :
    (∀ (w : World) (k : Keys) (yaw pitch gap : ℝ), w.character = Option.none →
       frame w k yaw pitch gap = (w, AnimCmd.none)) ∧
    initialWorld.cameraPos = ⟨0, 3, 10⟩ ∧
    initialWorld.character = Option.none ∧
    initialWorld.walkPlaying = Option.none :=
  ⟨fun w k yaw pitch gap h => frame_unloaded w k yaw pitch gap h, rfl, rfl, rfl⟩

/-- Witness for C8: a 2-second frame with `KeyW` held, before any asset has
loaded, changes nothing and issues no animation command. -/
theorem before_load_noop_witness :
    frame initialWorld kW 0 0 2 = (initialWorld, AnimCmd.none) :=
  before_load_noop.1 initialWorld kW 0 0 2 rfl

/-- C9: after any frame the character's orientation is exactly `charQuat yaw`,
a pure function of the current yaw; in particular two frames that agree on
yaw but have arbitrary different pitches produce identical orientations. -/
theorem orientation_yaw_only (w : World) (ch : CharState) (k : Keys)
    (yaw p1 p2 gap : ℝ) (hch : w.character = some ch) :
    (frame w k yaw p1 gap).1.character.map CharState.quat = some (charQuat yaw) ∧
    (frame w k yaw p1 gap).1.character.map CharState.quat =
      (frame w k yaw p2 gap).1.character.map CharState.quat := by
  rw [frame_loaded w ch k yaw p1 gap hch, frame_loaded w ch k yaw p2 gap hch]
  exact ⟨rfl, rfl⟩

/-- Witness for C9 at a concrete input: pitches 1 and 2 with yaw 0 give the
same character orientation `charQuat 0`. -/
theorem orientation_yaw_only_witness :
    (frame (loadChar initialWorld ⟨0, 0, 0, 1⟩) kW 0 1 (1 / 60)).1.character.map
        CharState.quat = some (charQuat 0) ∧
    (frame (loadChar initialWorld ⟨0, 0, 0, 1⟩) kW 0 1 (1 / 60)).1.character.map
        CharState.quat =
      (frame (loadChar initialWorld ⟨0, 0, 0, 1⟩) kW 0 2 (1 / 60)).1.character.map
        CharState.quat :=
  orientation_yaw_only (loadChar initialWorld ⟨0, 0, 0, 1⟩)
    ⟨CHARACTER_START_POSITION, ⟨0, 0, 0, 1⟩⟩ kW 0 1 2 (1 / 60) rfl

/-- C10: no frame ever changes the character's vertical coordinate — the
intent vector has zero `y` component and the yaw-only rotation keeps the
displacement horizontal, for any keys, yaw, pitch, and elapsed time. -/
theorem y_position_invariant (w : World) (ch : CharState) (k : Keys)
    (yaw pitch gap : ℝ) (hch : w.character = some ch) :
    ((frame w k yaw pitch gap).1.character.map fun c => c.pos.y) =
      some ch.pos.y := by
  rw [frame_loaded w ch k yaw pitch gap hch]
  simp only [Option.map_some']
  congr 1
  by_cases hm : isMoving k
  · rw [movedPos_moving _ _ _ _ hm]
    have hy : (applyQuaternion (normalize (moveDir k)) (charQuat yaw)).y = 0 := by
      rw [applyQuaternion_charQuat]
      simp [normalize, smul, moveDir]
    simp [addScaledVector, vadd, smul, hy]
  · rw [movedPos_not_moving _ _ _ _ hm]

/-- Witness for C10: a moving frame from the loaded start state keeps the
character at its initial height. -/
theorem y_position_invariant_witness :
    ((frame (loadChar initialWorld ⟨0, 0, 0, 1⟩) kW 0 0 (1 / 60)).1.character.map
        fun c => c.pos.y) = some CHARACTER_START_POSITION.y :=
  y_position_invariant (loadChar initialWorld ⟨0, 0, 0, 1⟩)
    ⟨CHARACTER_START_POSITION, ⟨0, 0, 0, 1⟩⟩ kW 0 0 (1 / 60) rfl

/-! ### Mouse look: pitch clamp -/

theorem onMouseMove_pitch_mem (l : Look) (dx dy : ℝ) :
    -(Real.pi / 2) ≤ (onMouseMove l dx dy).pitch ∧
    (onMouseMove l dx dy).pitch ≤ Real.pi / 2 := by
  constructor
  · exact le_max_left _ _
  · exact max_le (by linarith [Real.pi_div_two_pos]) (min_le_left _ _)

theorem processLook_pitch_mem (evs : List (ℝ × ℝ)) :
    ∀ l : Look, -(Real.pi / 2) ≤ l.pitch → l.pitch ≤ Real.pi / 2 →
      -(Real.pi / 2) ≤ (processLook l evs).pitch ∧
      (processLook l evs).pitch ≤ Real.pi / 2 := by
  induction evs with
  | nil => intro l h1 h2; exact ⟨h1, h2⟩
  | cons e es ih =>
    intro l h1 h2
    simp only [processLook]
    exact ih _ (onMouseMove_pitch_mem l e.1 e.2).1 (onMouseMove_pitch_mem l e.1 e.2).2

/-- C5: every pointer-motion sample updates yaw by `-dx * sensitivity` and
pitch by `-dy * sensitivity` before the clamp, and for every sequence of
motion samples applied from the initial look state the pitch stays within
`[-π/2, π/2]`. -/
theorem pitch_always_clamped :
    (∀ (l : Look) (dx dy : ℝ),
       (onMouseMove l dx dy).yaw = l.yaw - dx * sensitivity ∧
       (onMouseMove l dx dy).pitch =
         max (-(Real.pi / 2)) (min (Real.pi / 2) (l.pitch - dy * sensitivity))) ∧
    (∀ evs : List (ℝ × ℝ),
       -(Real.pi / 2) ≤ (processLook ⟨0, 0⟩ evs).pitch ∧
       (processLook ⟨0, 0⟩ evs).pitch ≤ Real.pi / 2) := by
  constructor
  · intro l dx dy
    exact ⟨rfl, rfl⟩
  · intro evs
    refine processLook_pitch_mem evs ⟨0, 0⟩ ?_ ?_
    · show -(Real.pi / 2) ≤ (0 : ℝ)
      linarith [Real.pi_div_two_pos]
    · show (0 : ℝ) ≤ Real.pi / 2
      linarith [Real.pi_div_two_pos]

/-! ### Camera follow -/

theorem vsub_lerp (c t : Vec3) :
    vsub t (lerpVectors c t 0.2) = smul (vsub t c) 0.8 := by
  ext <;> simp [vsub, lerpVectors, smul] <;> ring

theorem frame_noKeys_char (w : World) (ch : CharState) (yaw pitch gap : ℝ)
    (hch : w.character = some ch) :
    (frame w noKeys yaw pitch gap).1.character = some ⟨ch.pos, charQuat yaw⟩ ∧
    (frame w noKeys yaw pitch gap).1.cameraPos =
      lerpVectors w.cameraPos (tgtCamera ch.pos yaw pitch) 0.2 := by
  rw [frame_loaded w ch noKeys yaw pitch gap hch,
    movedPos_not_moving noKeys yaw (clampDelta gap) ch.pos not_isMoving_noKeys]
  exact ⟨rfl, rfl⟩

theorem iter_noKeys_char (w : World) (ch : CharState) (yaw pitch gap : ℝ)
    (hch : w.character = some ch) :
    ∀ n : ℕ, ∃ q : Quat,
      ((fun w' => (frame w' noKeys yaw pitch gap).1)^[n] w).character =
        some ⟨ch.pos, q⟩ := by
  intro n
  induction n with
  | zero =>
    refine ⟨ch.quat, ?_⟩
    rw [Function.iterate_zero_apply, hch]
  | succ n ih =>
    obtain ⟨q, hq⟩ := ih
    refine ⟨charQuat yaw, ?_⟩
    rw [Function.iterate_succ_apply']
    exact (frame_noKeys_char _ ⟨ch.pos, q⟩ yaw pitch gap hq).1

/-- C7: with the character loaded and stationary (no keys held) and the look
angles constant, every frame multiplies the distance between the live camera
position and the target camera position by exactly 0.8; consequently if the
camera does not start at the target it never reaches it in finitely many
frames. -/
theorem camera_convergence (w : World) (ch : CharState) (yaw pitch gap : ℝ)
    (hch : w.character = some ch) :
    (∀ n : ℕ,
       vlength (vsub (tgtCamera ch.pos yaw pitch)
         (((fun w' => (frame w' noKeys yaw pitch gap).1)^[n + 1] w).cameraPos)) =
       0.8 * vlength (vsub (tgtCamera ch.pos yaw pitch)
         (((fun w' => (frame w' noKeys yaw pitch gap).1)^[n] w).cameraPos))) ∧
    (vlength (vsub (tgtCamera ch.pos yaw pitch) w.cameraPos) ≠ 0 →
       ∀ n : ℕ,
         vlength (vsub (tgtCamera ch.pos yaw pitch)
           (((fun w' => (frame w' noKeys yaw pitch gap).1)^[n] w).cameraPos)) ≠ 0) := by
  have hstep : ∀ n : ℕ,
      vlength (vsub (tgtCamera ch.pos yaw pitch)
        (((fun w' => (frame w' noKeys yaw pitch gap).1)^[n + 1] w).cameraPos)) =
      0.8 * vlength (vsub (tgtCamera ch.pos yaw pitch)
        (((fun w' => (frame w' noKeys yaw pitch gap).1)^[n] w).cameraPos)) := by
    intro n
    obtain ⟨q, hq⟩ := iter_noKeys_char w ch yaw pitch gap hch n
    have hcam := (frame_noKeys_char _ ⟨ch.pos, q⟩ yaw pitch gap hq).2
    rw [Function.iterate_succ_apply', hcam, vsub_lerp, vlength_smul,
      abs_of_nonneg (by norm_num : (0 : ℝ) ≤ 0.8)]
  refine ⟨hstep, ?_⟩
  have hgeom : ∀ n : ℕ,
      vlength (vsub (tgtCamera ch.pos yaw pitch)
        (((fun w' => (frame w' noKeys yaw pitch gap).1)^[n] w).cameraPos)) =
      0.8 ^ n * vlength (vsub (tgtCamera ch.pos yaw pitch) w.cameraPos) := by
    intro n
    induction n with
    | zero => rw [Function.iterate_zero_apply, pow_zero, one_mul]
    | succ n ih => rw [hstep n, ih, pow_succ]; ring
  intro h0 n
  rw [hgeom n]
  exact mul_ne_zero (pow_ne_zero n (by norm_num)) h0

/-- Witness for C7: one stationary frame from the loaded start state shrinks
the camera-to-target distance by the factor 0.8. -/
theorem camera_convergence_witness :
    vlength (vsub (tgtCamera CHARACTER_START_POSITION 0 0)
      (((fun w' => (frame w' noKeys 0 0 (1 / 60)).1)^[0 + 1]
          (loadChar initialWorld ⟨0, 0, 0, 1⟩)).cameraPos)) =
    0.8 * vlength (vsub (tgtCamera CHARACTER_START_POSITION 0 0)
      (((fun w' => (frame w' noKeys 0 0 (1 / 60)).1)^[0]
          (loadChar initialWorld ⟨0, 0, 0, 1⟩)).cameraPos)) :=
  (camera_convergence (loadChar initialWorld ⟨0, 0, 0, 1⟩)
    ⟨CHARACTER_START_POSITION, ⟨0, 0, 0, 1⟩⟩ 0 0 (1 / 60) rfl).1 0

/-! ### Animation edge machine -/

theorem processFrames_nil (yaw pitch gap : ℝ) (w : World) :
    processFrames yaw pitch gap w [] = (w, []) := rfl

theorem processFrames_cons (yaw pitch gap : ℝ) (w : World) (k : Keys)
    (ks : List Keys) :
    processFrames yaw pitch gap w (k :: ks) =
      ((processFrames yaw pitch gap (frame w k yaw pitch gap).1 ks).1,
       (frame w k yaw pitch gap).2 ::
         (processFrames yaw pitch gap (frame w k yaw pitch gap).1 ks).2) := rfl

theorem processFrames_append (yaw pitch gap : ℝ) (l1 : List Keys) :
    ∀ (w : World) (l2 : List Keys),
      processFrames yaw pitch gap w (l1 ++ l2) =
        ((processFrames yaw pitch gap (processFrames yaw pitch gap w l1).1 l2).1,
         (processFrames yaw pitch gap w l1).2 ++
           (processFrames yaw pitch gap (processFrames yaw pitch gap w l1).1 l2).2) := by
  induction l1 with
  | nil => intro w l2; simp [processFrames_nil]
  | cons k ks ih =>
    intro w l2
    simp only [List.cons_append, processFrames_cons, ih]

theorem frame_anim_fields (w : World) (ch : CharState) (k : Keys)
    (yaw pitch gap : ℝ) (hch : w.character = some ch) :
    (frame w k yaw pitch gap).1.walkPlaying =
      (animStep w.walkPlaying w.wasMoving k).1 ∧
    (frame w k yaw pitch gap).1.wasMoving =
      (animStep w.walkPlaying w.wasMoving k).2.1 ∧
    (frame w k yaw pitch gap).2 = (animStep w.walkPlaying w.wasMoving k).2.2 ∧
    (frame w k yaw pitch gap).1.character.isSome = true := by
  rw [frame_loaded w ch k yaw pitch gap hch]
  exact ⟨rfl, rfl, rfl, rfl⟩

theorem frame_isSome (w : World) (k : Keys) (yaw pitch gap : ℝ) :
    (frame w k yaw pitch gap).1.character.isSome = w.character.isSome ∧
    (frame w k yaw pitch gap).1.walkPlaying.isSome = w.walkPlaying.isSome := by
  obtain ⟨c, wp, wm, cp⟩ := w
  cases c with
  | none => exact ⟨rfl, rfl⟩
  | some ch =>
    refine ⟨rfl, ?_⟩
    show (animStep wp wm k).1.isSome = wp.isSome
    cases wp with
    | none => rfl
    | some p =>
      by_cases hm : isMoving k <;> cases wm <;>
        (first
          | rw [animStep_start p k hm]
          | rw [animStep_stop p k hm]
          | rw [animStep_keepMoving p k hm]
          | rw [animStep_keepIdle p k hm]) <;> rfl

theorem frame_sync_step (w : World) (ch : CharState) (k : Keys)
    (yaw pitch gap : ℝ) (hch : w.character = some ch)
    (hsync : w.walkPlaying = some w.wasMoving) :
    (frame w k yaw pitch gap).1.walkPlaying =
      some ((frame w k yaw pitch gap).1.wasMoving) := by
  obtain ⟨e1, e2, -, -⟩ := frame_anim_fields w ch k yaw pitch gap hch
  rw [e1, e2, hsync]
  by_cases hm : isMoving k <;> cases hwm : w.wasMoving <;>
    first
      | rw [animStep_start _ _ hm]
      | rw [animStep_stop _ _ hm]
      | rw [animStep_keepMoving _ _ hm]
      | rw [animStep_keepIdle _ _ hm]

theorem frame_moving_sync (w : World) (ch : CharState) (p : Bool) (k : Keys)
    (yaw pitch gap : ℝ) (hch : w.character = some ch)
    (hwp : w.walkPlaying = some p)
    (hinv : w.walkPlaying = some true ∨ w.walkPlaying = some w.wasMoving)
    (hm : isMoving k) :
    (frame w k yaw pitch gap).1.walkPlaying = some true ∧
    (frame w k yaw pitch gap).1.wasMoving = true := by
  obtain ⟨e1, e2, -, -⟩ := frame_anim_fields w ch k yaw pitch gap hch
  rw [e1, e2, hwp]
  cases hwm : w.wasMoving
  · rw [animStep_start p k hm]
    exact ⟨rfl, rfl⟩
  · have hp : p = true := by
      rcases hinv with h | h
      · rw [hwp] at h
        exact Option.some.inj h
      · rw [hwp, hwm] at h
        exact Option.some.inj h
    rw [animStep_keepMoving p k hm, hp]
    exact ⟨rfl, rfl⟩

theorem frame_inv (w : World) (k : Keys) (yaw pitch gap : ℝ)
    (hinv : w.walkPlaying = some true ∨ w.walkPlaying = some w.wasMoving) :
    (frame w k yaw pitch gap).1.walkPlaying = some true ∨
    (frame w k yaw pitch gap).1.walkPlaying =
      some ((frame w k yaw pitch gap).1.wasMoving) := by
  cases hc : w.character with
  | none => rw [frame_unloaded _ _ _ _ _ hc]; exact hinv
  | some ch =>
    rcases hinv with h | h
    · obtain ⟨e1, e2, -, -⟩ := frame_anim_fields w ch k yaw pitch gap hc
      by_cases hm : isMoving k
      · left
        rw [e1, h]
        cases hwm : w.wasMoving
        · rw [animStep_start true k hm]
        · rw [animStep_keepMoving true k hm]
      · cases hwm : w.wasMoving
        · left
          rw [e1, h, hwm, animStep_keepIdle true k hm]
        · right
          rw [e1, e2, h, hwm, animStep_stop true k hm]
    · right
      exact frame_sync_step w ch k yaw pitch gap hc h

theorem processFrames_inv (yaw pitch gap : ℝ) (ks : List Keys) :
    ∀ w : World,
      w.character.isSome = true → w.walkPlaying.isSome = true →
      (w.walkPlaying = some true ∨ w.walkPlaying = some w.wasMoving) →
      (processFrames yaw pitch gap w ks).1.character.isSome = true ∧
      (processFrames yaw pitch gap w ks).1.walkPlaying.isSome = true ∧
      ((processFrames yaw pitch gap w ks).1.walkPlaying = some true ∨
       (processFrames yaw pitch gap w ks).1.walkPlaying =
         some ((processFrames yaw pitch gap w ks).1.wasMoving)) := by
  induction ks with
  | nil => intro w h1 h2 h3; exact ⟨h1, h2, h3⟩
  | cons k ks ih =>
    intro w h1 h2 h3
    simp only [processFrames_cons]
    exact ih _ (by rw [(frame_isSome w k yaw pitch gap).1, h1])
      (by rw [(frame_isSome w k yaw pitch gap).2, h2])
      (frame_inv w k yaw pitch gap h3)

theorem processFrames_sync (yaw pitch gap : ℝ) (ks : List Keys) :
    ∀ w : World,
      w.character.isSome = true →
      w.walkPlaying = some w.wasMoving →
      (processFrames yaw pitch gap w ks).1.walkPlaying =
        some ((processFrames yaw pitch gap w ks).1.wasMoving) ∧
      (processFrames yaw pitch gap w ks).1.character.isSome = true := by
  induction ks with
  | nil => intro w h1 h2; exact ⟨h2, h1⟩
  | cons k ks ih =>
    intro w h1 h2
    obtain ⟨ch, hch⟩ := Option.isSome_iff_exists.mp h1
    simp only [processFrames_cons]
    exact ih _ (by rw [(frame_isSome w k yaw pitch gap).1, h1])
      (frame_sync_step w ch k yaw pitch gap hch h2)

theorem processFrames_reaches_sync (yaw pitch gap : ℝ) (ks : List Keys) :
    ∀ w : World,
      w.character.isSome = true → w.walkPlaying.isSome = true →
      (w.walkPlaying = some true ∨ w.walkPlaying = some w.wasMoving) →
      (∃ j ∈ ks, isMoving j) →
      (processFrames yaw pitch gap w ks).1.walkPlaying =
        some ((processFrames yaw pitch gap w ks).1.wasMoving) ∧
      (processFrames yaw pitch gap w ks).1.character.isSome = true := by
  induction ks with
  | nil =>
    intro w _ _ _ hex
    exact absurd hex (by simp)
  | cons k ks ih =>
    intro w h1 h2 h3 hex
    simp only [processFrames_cons]
    by_cases hm : isMoving k
    · obtain ⟨ch, hch⟩ := Option.isSome_iff_exists.mp h1
      obtain ⟨p, hp⟩ := Option.isSome_iff_exists.mp h2
      have hms := frame_moving_sync w ch p k yaw pitch gap hch hp h3 hm
      have hsync1 : (frame w k yaw pitch gap).1.walkPlaying =
          some ((frame w k yaw pitch gap).1.wasMoving) := by
        rw [hms.1, hms.2]
      exact processFrames_sync yaw pitch gap ks _
        (by rw [(frame_isSome w k yaw pitch gap).1, h1]) hsync1
    · have hex' : ∃ j ∈ ks, isMoving j := by
        rcases hex with ⟨j, hj, hjm⟩
        rcases List.mem_cons.mp hj with rfl | hj'
        · exact absurd hjm hm
        · exact ⟨j, hj', hjm⟩
      exact ih _ (by rw [(frame_isSome w k yaw pitch gap).1, h1])
        (by rw [(frame_isSome w k yaw pitch gap).2, h2])
        (frame_inv w k yaw pitch gap h3) hex'

theorem processFrames_moving_run (yaw pitch gap : ℝ) (ks : List Keys) :
    ∀ w : World, (∀ j ∈ ks, isMoving j) →
      w.character.isSome = true → w.walkPlaying = some true →
      w.wasMoving = true →
      (processFrames yaw pitch gap w ks).2 =
        List.replicate ks.length AnimCmd.none ∧
      (processFrames yaw pitch gap w ks).1.character.isSome = true ∧
      (processFrames yaw pitch gap w ks).1.walkPlaying = some true ∧
      (processFrames yaw pitch gap w ks).1.wasMoving = true := by
  induction ks with
  | nil => intro w _ h1 h2 h3; exact ⟨rfl, h1, h2, h3⟩
  | cons k ks ih =>
    intro w hks h1 h2 h3
    have hk : isMoving k := hks k (List.mem_cons_self k ks)
    have hks' : ∀ j ∈ ks, isMoving j := fun j hj => hks j (List.mem_cons_of_mem k hj)
    obtain ⟨ch, hch⟩ := Option.isSome_iff_exists.mp h1
    obtain ⟨e1, e2, e3, e4⟩ := frame_anim_fields w ch k yaw pitch gap hch
    have hAnim : animStep w.walkPlaying w.wasMoving k =
        (some true, true, AnimCmd.none) := by
      rw [h2, h3]
      exact animStep_keepMoving true k hk
    obtain ⟨r1, r2, r3, r4⟩ := ih (frame w k yaw pitch gap).1 hks' e4
      (by rw [e1, hAnim]) (by rw [e2, hAnim])
    simp only [processFrames_cons, List.length_cons, List.replicate_succ]
    refine ⟨?_, r2, r3, r4⟩
    rw [r1, e3, hAnim]

theorem processFrames_idle_run (yaw pitch gap : ℝ) (ks : List Keys) :
    ∀ (w : World) (b : Bool), (∀ j ∈ ks, ¬ isMoving j) →
      w.character.isSome = true → w.walkPlaying = some b →
      w.wasMoving = false →
      (processFrames yaw pitch gap w ks).2 =
        List.replicate ks.length AnimCmd.none ∧
      (processFrames yaw pitch gap w ks).1.character.isSome = true ∧
      (processFrames yaw pitch gap w ks).1.walkPlaying = some b ∧
      (processFrames yaw pitch gap w ks).1.wasMoving = false := by
  induction ks with
  | nil => intro w b _ h1 h2 h3; exact ⟨rfl, h1, h2, h3⟩
  | cons k ks ih =>
    intro w b hks h1 h2 h3
    have hk : ¬ isMoving k := hks k (List.mem_cons_self k ks)
    have hks' : ∀ j ∈ ks, ¬ isMoving j := fun j hj => hks j (List.mem_cons_of_mem k hj)
    obtain ⟨ch, hch⟩ := Option.isSome_iff_exists.mp h1
    obtain ⟨e1, e2, e3, e4⟩ := frame_anim_fields w ch k yaw pitch gap hch
    have hAnim : animStep w.walkPlaying w.wasMoving k =
        (some b, false, AnimCmd.none) := by
      rw [h2, h3]
      exact animStep_keepIdle b k hk
    obtain ⟨r1, r2, r3, r4⟩ := ih (frame w k yaw pitch gap).1 b hks' e4
      (by rw [e1, hAnim]) (by rw [e2, hAnim])
    simp only [processFrames_cons, List.length_cons, List.replicate_succ]
    refine ⟨?_, r2, r3, r4⟩
    rw [r1, e3, hAnim]

theorem countCmd_append (c : AnimCmd) (l1 l2 : List AnimCmd) :
    countCmd c (l1 ++ l2) = countCmd c l1 + countCmd c l2 := by
  induction l1 with
  | nil => simp [countCmd]
  | cons d ds ih => simp [countCmd, ih]; ring

theorem countCmd_replicate (c d : AnimCmd) (n : ℕ) :
    countCmd c (List.replicate n d) = if d = c then n else 0 := by
  induction n with
  | zero => simp [countCmd]
  | succ n ih =>
    rw [List.replicate_succ]
    simp only [countCmd, ih]
    by_cases h : d = c
    · simp [h]
      omega
    · simp [h]

/-- C1 counterexample: immediately after the load callback (which calls
`walkAction.play()` unconditionally) a frame with no keys held leaves the
walk animation playing even though no idle-to-moving edge has ever
occurred — the claimed "playing iff in motion" invariant fails right after
load. -/
theorem walk_plays_while_idle :
    (frame (loadChar initialWorld ⟨0, 0, 0, 1⟩) noKeys 0 0 (1 / 60)).1.walkPlaying
      = some true ∧
    ¬ isMoving noKeys ∧
    (frame (loadChar initialWorld ⟨0, 0, 0, 1⟩) noKeys 0 0 (1 / 60)).2
      = AnimCmd.none := by
  obtain ⟨e1, -, e3, -⟩ := frame_anim_fields (loadChar initialWorld ⟨0, 0, 0, 1⟩)
    ⟨CHARACTER_START_POSITION, ⟨0, 0, 0, 1⟩⟩ noKeys 0 0 (1 / 60) rfl
  have hwp : (loadChar initialWorld ⟨0, 0, 0, 1⟩).walkPlaying = some true := rfl
  have hwm : (loadChar initialWorld ⟨0, 0, 0, 1⟩).wasMoving = false := rfl
  refine ⟨?_, not_isMoving_noKeys, ?_⟩
  · rw [e1, hwp, hwm, animStep_keepIdle true noKeys not_isMoving_noKeys]
  · rw [e3, hwp, hwm, animStep_keepIdle true noKeys not_isMoving_noKeys]

/-- C1 (amended): from the first idle-to-moving edge onward the walk
animation is playing iff the current frame's intent is nonzero (i.e. the
last moving/idle edge was into motion and not yet followed by one into
rest); within the frame loop a start command is issued only on an
idle-to-moving edge, a stop command only on a moving-to-idle edge, and the
animation is never restarted while already moving.  (Before the first such
edge the animation plays unconditionally, having been started by the load
callback.) -/
theorem walk_anim_edge_invariant :
    (∀ (q0 : Quat) (yaw pitch gap : ℝ) (pre : List Keys) (k : Keys),
       (∃ j ∈ pre ++ [k], isMoving j) →
       ((processFrames yaw pitch gap (loadChar initialWorld q0)
           (pre ++ [k])).1.walkPlaying = some true ↔ isMoving k)) ∧
    (∀ (w : World) (k : Keys) (yaw pitch gap : ℝ),
       w.wasMoving = true → isMoving k →
       (frame w k yaw pitch gap).2 ≠ AnimCmd.start) ∧
    (∀ (w : World) (k : Keys) (yaw pitch gap : ℝ),
       (frame w k yaw pitch gap).2 = AnimCmd.start →
       isMoving k ∧ w.wasMoving = false) ∧
    (∀ (w : World) (k : Keys) (yaw pitch gap : ℝ),
       (frame w k yaw pitch gap).2 = AnimCmd.stop →
       ¬ isMoving k ∧ w.wasMoving = true) := by
  refine ⟨?_, ?_, ?_, ?_⟩
  · intro q0 yaw pitch gap pre k hex
    have h1 : (loadChar initialWorld q0).character.isSome = true := rfl
    have h2 : (loadChar initialWorld q0).walkPlaying.isSome = true := rfl
    have h3 : (loadChar initialWorld q0).walkPlaying = some true ∨
        (loadChar initialWorld q0).walkPlaying =
          some (loadChar initialWorld q0).wasMoving := Or.inl rfl
    rw [processFrames_append]
    simp only [processFrames_cons, processFrames_nil]
    by_cases hm : isMoving k
    · have hinv := processFrames_inv yaw pitch gap pre (loadChar initialWorld q0)
        h1 h2 h3
      obtain ⟨ch, hch⟩ := Option.isSome_iff_exists.mp hinv.1
      obtain ⟨p, hp⟩ := Option.isSome_iff_exists.mp hinv.2.1
      have hms := frame_moving_sync _ ch p k yaw pitch gap hch hp hinv.2.2 hm
      exact iff_of_true hms.1 hm
    · have hexpre : ∃ j ∈ pre, isMoving j := by
        rcases hex with ⟨j, hj, hjm⟩
        rcases List.mem_append.mp hj with hj' | hj'
        · exact ⟨j, hj', hjm⟩
        · rw [List.mem_singleton] at hj'
          subst hj'
          exact absurd hjm hm
      have hsync := processFrames_reaches_sync yaw pitch gap pre
        (loadChar initialWorld q0) h1 h2 h3 hexpre
      obtain ⟨ch, hch⟩ := Option.isSome_iff_exists.mp hsync.2
      have hstep := frame_sync_step _ ch k yaw pitch gap hch hsync.1
      obtain ⟨-, e2, -, -⟩ := frame_anim_fields _ ch k yaw pitch gap hch
      have hwmfinal :
          (frame (processFrames yaw pitch gap (loadChar initialWorld q0) pre).1
            k yaw pitch gap).1.wasMoving = false := by
        rw [e2, hsync.1]
        cases hwm1 : (processFrames yaw pitch gap (loadChar initialWorld q0)
            pre).1.wasMoving
        · rw [animStep_keepIdle false k hm]
        · rw [animStep_stop true k hm]
      rw [hstep, hwmfinal]
      exact iff_of_false (by simp) hm
  · intro w k yaw pitch gap hwm hm
    cases hc : w.character with
    | none =>
      rw [frame_unloaded _ _ _ _ _ hc]
      simp
    | some ch =>
      obtain ⟨-, -, e3, -⟩ := frame_anim_fields w ch k yaw pitch gap hc
      rw [e3]
      cases hwp : w.walkPlaying with
      | none => rw [animStep_unloaded]; simp
      | some p =>
        rw [hwm, animStep_keepMoving p k hm]
        simp
  · intro w k yaw pitch gap hcmd
    cases hc : w.character with
    | none =>
      rw [frame_unloaded _ _ _ _ _ hc] at hcmd
      exact absurd hcmd (by simp)
    | some ch =>
      obtain ⟨-, -, e3, -⟩ := frame_anim_fields w ch k yaw pitch gap hc
      rw [e3] at hcmd
      cases hwp : w.walkPlaying with
      | none =>
        rw [hwp, animStep_unloaded] at hcmd
        exact absurd hcmd (by simp)
      | some p =>
        rw [hwp] at hcmd
        by_cases hm : isMoving k <;> cases hwm : w.wasMoving
        · exact ⟨hm, rfl⟩
        · rw [hwm, animStep_keepMoving p k hm] at hcmd
          exact absurd hcmd (by simp)
        · rw [hwm, animStep_keepIdle p k hm] at hcmd
          exact absurd hcmd (by simp)
        · rw [hwm, animStep_stop p k hm] at hcmd
          exact absurd hcmd (by simp)
  · intro w k yaw pitch gap hcmd
    cases hc : w.character with
    | none =>
      rw [frame_unloaded _ _ _ _ _ hc] at hcmd
      exact absurd hcmd (by simp)
    | some ch =>
      obtain ⟨-, -, e3, -⟩ := frame_anim_fields w ch k yaw pitch gap hc
      rw [e3] at hcmd
      cases hwp : w.walkPlaying with
      | none =>
        rw [hwp, animStep_unloaded] at hcmd
        exact absurd hcmd (by simp)
      | some p =>
        rw [hwp] at hcmd
        by_cases hm : isMoving k <;> cases hwm : w.wasMoving
        · rw [hwm, animStep_start p k hm] at hcmd
          exact absurd hcmd (by simp)
        · rw [hwm, animStep_keepMoving p k hm] at hcmd
          exact absurd hcmd (by simp)
        · rw [hwm, animStep_keepIdle p k hm] at hcmd
          exact absurd hcmd (by simp)
        · exact ⟨hm, rfl⟩

/-- Witness for the amended C1: after the single moving frame `[kW]` the walk
animation is playing iff `kW` yields motion (it does). -/
theorem walk_anim_edge_invariant_witness :
    (processFrames 0 0 (1 / 60) (loadChar initialWorld ⟨0, 0, 0, 1⟩)
        ([] ++ [kW])).1.walkPlaying = some true ↔ isMoving kW :=
  walk_anim_edge_invariant.1 ⟨0, 0, 0, 1⟩ 0 0 (1 / 60) [] kW
    ⟨kW, by simp, isMoving_kW⟩

/-- C2: starting from rest with the character and walk action loaded, a run of
`N ≥ 1` frames of nonzero intent followed by `M` frames of zero intent
produces the command trace `start, none^(N-1), stop, none^(M-1)` (no `stop`
block when `M = 0`): exactly one start, issued on the first frame of the run,
and exactly one stop when the intent returns to zero; moreover a frame with
no moving/idle edge never issues any animation command. -/
theorem anim_command_counts :
    (∀ (w : World) (ch : CharState) (b : Bool) (yaw pitch gap : ℝ)
       (run rest : List Keys),
       w.character = some ch → w.walkPlaying = some b → w.wasMoving = false →
       run ≠ [] → (∀ j ∈ run, isMoving j) → (∀ j ∈ rest, ¬ isMoving j) →
       (processFrames yaw pitch gap w (run ++ rest)).2 =
         AnimCmd.start :: List.replicate (run.length - 1) AnimCmd.none ++
           (if rest = [] then []
            else AnimCmd.stop :: List.replicate (rest.length - 1) AnimCmd.none) ∧
       countCmd AnimCmd.start (processFrames yaw pitch gap w (run ++ rest)).2 = 1 ∧
       countCmd AnimCmd.stop (processFrames yaw pitch gap w (run ++ rest)).2 =
         (if rest = [] then 0 else 1)) ∧
    (∀ (w : World) (k : Keys) (yaw pitch gap : ℝ),
       (isMoving k ↔ w.wasMoving = true) →
       (frame w k yaw pitch gap).2 = AnimCmd.none) := by
  constructor
  · intro w ch b yaw pitch gap run rest hch hwp hwm hne hmov hidle
    rcases run with _ | ⟨k0, run'⟩
    · exact absurd rfl hne
    have hk0 : isMoving k0 := hmov k0 (List.mem_cons_self k0 run')
    have hmov' : ∀ j ∈ run', isMoving j :=
      fun j hj => hmov j (List.mem_cons_of_mem k0 hj)
    obtain ⟨e1, e2, e3, e4⟩ := frame_anim_fields w ch k0 yaw pitch gap hch
    have hAnim : animStep w.walkPlaying w.wasMoving k0 =
        (some true, true, AnimCmd.start) := by
      rw [hwp, hwm]
      exact animStep_start b k0 hk0
    obtain ⟨m1, m2, m3, m4⟩ := processFrames_moving_run yaw pitch gap run'
      (frame w k0 yaw pitch gap).1 hmov' e4 (by rw [e1, hAnim]) (by rw [e2, hAnim])
    have hcmd0 : (frame w k0 yaw pitch gap).2 = AnimCmd.start := by
      rw [e3, hAnim]
    have hlist : (processFrames yaw pitch gap w ((k0 :: run') ++ rest)).2 =
        AnimCmd.start :: List.replicate run'.length AnimCmd.none ++
          (if rest = [] then []
           else AnimCmd.stop :: List.replicate (rest.length - 1) AnimCmd.none) := by
      simp only [List.cons_append, processFrames_cons, processFrames_append]
      rw [hcmd0, m1]
      rcases rest with _ | ⟨r0, rest'⟩
      · simp [processFrames_nil]
      · have hr0 : ¬ isMoving r0 := hidle r0 (List.mem_cons_self r0 rest')
        have hidle' : ∀ j ∈ rest', ¬ isMoving j :=
          fun j hj => hidle j (List.mem_cons_of_mem r0 hj)
        set w2 := (processFrames yaw pitch gap (frame w k0 yaw pitch gap).1 run').1
          with hw2
        obtain ⟨p2, hp2⟩ := Option.isSome_iff_exists.mp m2
        obtain ⟨f1, f2, f3, f4⟩ := frame_anim_fields w2 p2 r0 yaw pitch gap hp2
        have hAnim2 : animStep w2.walkPlaying w2.wasMoving r0 =
            (some false, false, AnimCmd.stop) := by
          rw [m3, m4]
          exact animStep_stop true r0 hr0
        obtain ⟨i1, -, -, -⟩ := processFrames_idle_run yaw pitch gap rest'
          (frame w2 r0 yaw pitch gap).1 false hidle' f4
          (by rw [f1, hAnim2]) (by rw [f2, hAnim2])
        simp only [processFrames_cons]
        rw [i1, f3, hAnim2]
        simp
    have hlen : (k0 :: run').length - 1 = run'.length := by simp
    refine ⟨by rw [hlist, hlen], ?_, ?_⟩
    · rw [hlist]
      rcases rest with _ | ⟨r0, rest'⟩ <;>
        simp [countCmd, countCmd_append, countCmd_replicate]
    · rw [hlist]
      rcases rest with _ | ⟨r0, rest'⟩ <;>
        simp [countCmd, countCmd_append, countCmd_replicate]
  · intro w k yaw pitch gap hiff
    cases hc : w.character with
    | none => rw [frame_unloaded _ _ _ _ _ hc]
    | some ch =>
      obtain ⟨-, -, e3, -⟩ := frame_anim_fields w ch k yaw pitch gap hc
      rw [e3]
      cases hwp : w.walkPlaying with
      | none => rw [animStep_unloaded]
      | some p =>
        by_cases hm : isMoving k
        · rw [hiff.mp hm, animStep_keepMoving p k hm]
        · have hw : w.wasMoving = false := by
            cases hwm : w.wasMoving
            · rfl
            · exact absurd (hiff.mpr hwm) hm
          rw [hw, animStep_keepIdle p k hm]

/-- Witness for C2: the two-frame input `[kW] ++ [noKeys]` from the loaded
rest state issues exactly one start followed by exactly one stop. -/
theorem anim_command_counts_witness :
    (processFrames 0 0 (1 / 60) (loadChar initialWorld ⟨0, 0, 0, 1⟩)
        ([kW] ++ [noKeys])).2 =
      AnimCmd.start :: List.replicate (List.length [kW] - 1) AnimCmd.none ++
        (if [noKeys] = ([] : List Keys) then []
         else AnimCmd.stop ::
           List.replicate (List.length [noKeys] - 1) AnimCmd.none) ∧
    countCmd AnimCmd.start
      (processFrames 0 0 (1 / 60) (loadChar initialWorld ⟨0, 0, 0, 1⟩)
        ([kW] ++ [noKeys])).2 = 1 ∧
    countCmd AnimCmd.stop
      (processFrames 0 0 (1 / 60) (loadChar initialWorld ⟨0, 0, 0, 1⟩)
        ([kW] ++ [noKeys])).2 =
      (if [noKeys] = ([] : List Keys) then 0 else 1) :=
  anim_command_counts.1 (loadChar initialWorld ⟨0, 0, 0, 1⟩)
    ⟨CHARACTER_START_POSITION, ⟨0, 0, 0, 1⟩⟩ true 0 0 (1 / 60) [kW] [noKeys]
    rfl rfl rfl (by simp)
    (by intro j hj; rw [List.mem_singleton] at hj; subst hj; exact isMoving_kW)
    (by intro j hj; rw [List.mem_singleton] at hj; subst hj; exact not_isMoving_noKeys)

end VirtualHouseTour
